import Mathlib

/-!
Verification development for the crowdsec→Cloudflare bouncer's
decision-to-batch reconciliation engine.

The embedded code:
  * the Batch Collector: the two loops over `streamDecision.Deleted` and
    `streamDecision.New` (src/unnamed/part_000, lines 83-95; the same loops
    are applied to the persistent maps as `CollectLAPIStream` in
    src/main.go, line 141);
  * the Flush Scheduler: the `cloudflareTicker.C` branch of the select loop
    (src/main.go, lines 103-136);
  * the per-batch collect-and-flush loop of src/unnamed/part_000
    (lines 80-121), whose delete call discards its error return.

Go maps are embedded as association lists without duplicate keys.
`map[K]bool` used as a set (`deleteIPMap`, `addIPMap`) becomes a
duplicate-free list with membership-checked insertion; iteration over a Go
map (building the `addIPs` / `deleteIPs` slices) becomes the list itself —
Go's iteration order is unspecified and no property below depends on order.
Go's `m[k]` lookup on `map[string]string` yields the zero value "" for an
absent key: `mapGetD` below. Remote calls are embedded as oracle
parameters: an `Except` value standing for the call's outcome, consulted
exactly where the Go code makes the call; `log.Fatal` (process death)
becomes an `Except.error` result.
-/

/-- One decision's value (`*decision.Value` in the Go source; only the
`Value` field of a decision is ever read). -/
abbrev IPValue := String

/-- A stream batch as delivered on `csLapi.Stream`: the `New` and `Deleted`
decision lists, each reduced to its values. -/
structure StreamBatch where
  new : List IPValue
  deleted : List IPValue
deriving Repr, DecidableEq

/-- The fixed annotation of every created item
(src/unnamed/part_000, line 92). -/
def bouncerComment : String := "Added by crowdsec bouncer"

/-- Go `m[k]` on an association list: `none` when the key is absent. -/
def mlookup (m : List (String × String)) (k : String) : Option String :=
  match m with
  | [] => none
  | (k', v) :: rest => if k' = k then some v else mlookup rest k

/-- Go `m[k]` on a `map[string]string`: the zero value `""` when absent. -/
def mapGetD (m : List (String × String)) (k : String) : String :=
  (mlookup m k).getD ""

/-- Go `m[k] = v`: replace the binding when present, append otherwise. -/
def mapInsert (m : List (String × String)) (k v : String) :
    List (String × String) :=
  match m with
  | [] => [(k, v)]
  | (k', v') :: rest =>
      if k' = k then (k, v) :: rest else (k', v') :: mapInsert rest k v

/-- Go `delete(m, k)`. -/
def mapErase (m : List (String × String)) (k : String) :
    List (String × String) :=
  m.filter (fun p => p.1 ≠ k)

/-- Go `m[x] = true` on a `map[T]bool` used as a set: insert unless present. -/
def setInsert {α : Type} [DecidableEq α] (l : List α) (x : α) : List α :=
  if x ∈ l then l else l ++ [x]

/-- The Reconciliation State: the three process-wide maps of src/main.go,
lines 92-95.  `index` is `cloudflareIDByIP` (ip → remote ID), `deleteM` is
`deleteIPMap` (the pending `IPListItemDeleteItemRequest.ID`s), `addM` is
`addIPMap` (the pending `IPListItemCreateRequest` (IP, Comment) pairs). -/
structure ReconState where
  index : List (String × String)
  deleteM : List String
  addM : List (String × String)
deriving Repr, DecidableEq

/-- One iteration of the deleted-decisions loop
(src/unnamed/part_000, lines 83-88):
```
if cloudflareIdByIp[*decision.Value] != "" {
    deleteIpsMap[...{ID: cloudflareIdByIp[*decision.Value]}] = true
    delete(cloudflareIdByIp, *decision.Value)
}
```
Purely in-memory: no remote call is modelled because the source makes
none here. -/
def stepDeleted (st : ReconState) (v : IPValue) : ReconState :=
  if mapGetD st.index v ≠ "" then
    { st with
      deleteM := setInsert st.deleteM (mapGetD st.index v)
      index := mapErase st.index v }
  else st

/-- The deleted-decisions loop (src/unnamed/part_000, lines 83-88). -/
def collectDeleted (st : ReconState) (deleted : List IPValue) : ReconState :=
  deleted.foldl stepDeleted st

/-- The new-decisions loop (src/unnamed/part_000, lines 90-95):
`addIpsMap[IPListItemCreateRequest{IP: *decision.Value, Comment: ...}] = true`. -/
def collectNew (st : ReconState) (news : List IPValue) : ReconState :=
  news.foldl
    (fun st v => { st with addM := setInsert st.addM (v, bouncerComment) }) st

/-- The Batch Collector: fold one stream batch into the state — the deleted
loop then the new loop, in source order (src/unnamed/part_000, lines 83-95;
invoked as `CollectLAPIStream` on the persistent maps in src/main.go,
line 141). -/
def CollectLAPIStream (st : ReconState) (batch : StreamBatch) : ReconState :=
  collectNew (collectDeleted st batch.deleted) batch.new

/-- What one flush tick produced: the state afterwards and the request list
of each remote call, `none` when the call was skipped (empty pending set). -/
structure FlushResult where
  state : ReconState
  addCall : Option (List (String × String))
  deleteCall : Option (List String)
deriving Repr, DecidableEq

/-- The Flush Scheduler: the `cloudflareTicker.C` branch of src/main.go,
lines 103-136.  `createResp` / `deleteResp` are the outcomes the remote
would give to `CreateIPListItems` / `DeleteIPListItems`, consulted only
when the corresponding pending list is non-empty (the source guards each
call with `len(...) > 0`); a create response is the returned item list as
(IP, ID) pairs.  `log.Fatal err` on either call is the `.error` result; on
the success path both pending maps are re-made empty (lines 134-136). -/
def flushTick (st : ReconState)
    (createResp : Except String (List (String × String)))
    (deleteResp : Except String Unit) : Except String FlushResult :=
  let addIPs := st.addM
  let afterAdd : Except String (List (String × String) ×
      Option (List (String × String))) :=
    if addIPs.isEmpty then .ok (st.index, none)
    else
      match createResp with
      | .error e => .error e
      | .ok ipItems =>
          .ok (ipItems.foldl (fun m p => mapInsert m p.1 p.2) st.index,
               some addIPs)
  match afterAdd with
  | .error e => .error e
  | .ok (index2, addCall) =>
      let deleteIPs := st.deleteM
      if deleteIPs.isEmpty then .ok ⟨⟨index2, [], []⟩, addCall, none⟩
      else
        match deleteResp with
        | .error e => .error e
        | .ok _ => .ok ⟨⟨index2, [], []⟩, addCall, some deleteIPs⟩

/-- One iteration of src/unnamed/part_000's stream loop (lines 80-121):
fresh pending maps, the collector loops, then the create call (fatal on
error, response folded into `cloudflareIdByIp`) and the delete call — whose
return values the source DISCARDS (line 118: `cfApi.DeleteIPListItems(...)`
with no error check), so `deleteResp` is accepted but never consulted,
exactly as in the source. -/
def processStreamBatch (index : List (String × String)) (batch : StreamBatch)
    (createResp : Except String (List (String × String)))
    (deleteResp : Except String Unit) : Except String FlushResult :=
  let st := CollectLAPIStream ⟨index, [], []⟩ batch
  let afterAdd : Except String (List (String × String) ×
      Option (List (String × String))) :=
    if st.addM.isEmpty then .ok (st.index, none)
    else
      match createResp with
      | .error e => .error e
      | .ok ipItems =>
          .ok (ipItems.foldl (fun m p => mapInsert m p.1 p.2) st.index,
               some st.addM)
  match afterAdd with
  | .error e => .error e
  | .ok (index2, addCall) =>
      if st.deleteM.isEmpty then .ok ⟨⟨index2, [], []⟩, addCall, none⟩
      else
        let _ := deleteResp
        .ok ⟨⟨index2, [], []⟩, addCall, some st.deleteM⟩

/-! ### Lemmas about the map and set primitives -/

theorem mem_setInsert {α : Type} [DecidableEq α] (l : List α) (x y : α) :
    y ∈ setInsert l x ↔ y = x ∨ y ∈ l := by
  unfold setInsert
  split
  · constructor
    · exact fun h => Or.inr h
    · rintro (rfl | h) <;> assumption
  · simp [List.mem_append, or_comm]

theorem setInsert_nodup {α : Type} [DecidableEq α] {l : List α} (hl : l.Nodup)
    (x : α) : (setInsert l x).Nodup := by
  unfold setInsert
  split
  · exact hl
  · next hx => simp [List.nodup_append, hl, hx]

theorem subset_setInsert {α : Type} [DecidableEq α] (l : List α) (x : α) :
    l ⊆ setInsert l x := by
  unfold setInsert
  split
  · exact fun _ h => h
  · exact fun _ h => List.mem_append.mpr (Or.inl h)

theorem mlookup_mapErase (m : List (String × String)) (v k : String) :
    mlookup (mapErase m v) k = if k = v then none else mlookup m k := by
  induction m with
  | nil => simp [mapErase, mlookup]
  | cons p rest ih =>
      by_cases h1 : p.1 = v
      · have he : mapErase (p :: rest) v = mapErase rest v := by
          simp [mapErase, List.filter_cons, h1]
        rw [he, ih]
        by_cases h2 : k = v
        · simp [h2]
        · have h3 : ¬ p.1 = k := fun h => h2 (by rw [← h, h1])
          simp [h2, mlookup, h3]
      · have he : mapErase (p :: rest) v = p :: mapErase rest v := by
          simp [mapErase, List.filter_cons, h1]
        rw [he]
        by_cases h2 : p.1 = k
        · have h3 : ¬ k = v := fun h => h1 (by rw [h2, h])
          simp [mlookup, h2, h3]
        · simp [mlookup, h2, ih]

theorem mlookup_mapInsert (m : List (String × String)) (k v k' : String) :
    mlookup (mapInsert m k v) k' = if k = k' then some v else mlookup m k' := by
  induction m with
  | nil => simp [mapInsert, mlookup]
  | cons p rest ih =>
      by_cases h1 : p.1 = k
      · have he : mapInsert (p :: rest) k v = (k, v) :: rest := by
          simp [mapInsert, h1]
        rw [he]
        by_cases h2 : k = k'
        · simp [mlookup, h2]
        · have h3 : ¬ p.1 = k' := fun h => h2 (by rw [← h1, h])
          simp [mlookup, h2, h3]
      · have he : mapInsert (p :: rest) k v = p :: mapInsert rest k v := by
          simp [mapInsert, h1]
        rw [he]
        by_cases h2 : p.1 = k'
        · have h3 : ¬ k = k' := fun h => h1 (h2.trans h.symm)
          simp [mlookup, h2, h3]
        · simp [mlookup, h2, ih]

/-- Folding the create-items response into the index (the
`for _, ipItem := range ipItems` loop) does not touch keys outside the
response. -/
theorem mlookup_foldl_insert_of_not_mem (items : List (String × String))
    (m : List (String × String)) (k : String) (h : ∀ p ∈ items, p.1 ≠ k) :
    mlookup (items.foldl (fun m p => mapInsert m p.1 p.2) m) k = mlookup m k := by
  induction items generalizing m with
  | nil => rfl
  | cons p rest ih =>
      simp only [List.foldl_cons]
      rw [ih _ (fun q hq => h q (List.mem_cons_of_mem _ hq)),
        mlookup_mapInsert]
      simp [h p (List.mem_cons_self _ _)]

/-- If `ip` occurs exactly once in the create-items response, with remote
ID `r`, folding the response into the index leaves `ip` bound to `r`. -/
theorem mlookup_foldl_insert_unique (items : List (String × String))
    (m : List (String × String)) (ip r : String)
    (h : items.filter (fun p => p.1 == ip) = [(ip, r)]) :
    mlookup (items.foldl (fun m p => mapInsert m p.1 p.2) m) ip = some r := by
  induction items generalizing m with
  | nil => simp at h
  | cons p rest ih =>
      rw [List.filter_cons] at h
      by_cases hp : p.1 = ip
      · rw [if_pos (by simp [hp])] at h
        obtain ⟨h1, h2⟩ := List.cons_eq_cons.mp h
        have hrest : ∀ q ∈ rest, q.1 ≠ ip := by
          intro q hq
          have := List.filter_eq_nil_iff.mp h2 q hq
          simpa using this
        simp only [List.foldl_cons]
        rw [mlookup_foldl_insert_of_not_mem _ _ _ hrest, h1,
          mlookup_mapInsert]
        simp
      · rw [if_neg (by simp [hp])] at h
        simp only [List.foldl_cons]
        exact ih _ h

/-! ### Lemmas about the Batch Collector -/

/-- The deleted-decisions loop never touches `addIpsMap`. -/
theorem collectDeleted_addM (st : ReconState) (ds : List IPValue) :
    (collectDeleted st ds).addM = st.addM := by
  induction ds generalizing st with
  | nil => rfl
  | cons v rest ih =>
      show (collectDeleted (stepDeleted st v) rest).addM = st.addM
      rw [ih]
      unfold stepDeleted
      split <;> rfl

/-- The new-decisions loop never touches `cloudflareIdByIp`. -/
theorem collectNew_index (st : ReconState) (ns : List IPValue) :
    (collectNew st ns).index = st.index := by
  induction ns generalizing st with
  | nil => rfl
  | cons v rest ih => exact ih _

/-- The new-decisions loop never touches `deleteIpsMap`. -/
theorem collectNew_deleteM (st : ReconState) (ns : List IPValue) :
    (collectNew st ns).deleteM = st.deleteM := by
  induction ns generalizing st with
  | nil => rfl
  | cons v rest ih => exact ih _

/-- `deleteIpsMap` only grows while a window's batches are collected. -/
theorem collectDeleted_deleteM_subset (st : ReconState) (ds : List IPValue) :
    st.deleteM ⊆ (collectDeleted st ds).deleteM := by
  induction ds generalizing st with
  | nil => exact fun _ h => h
  | cons v rest ih =>
      intro x hx
      refine ih (stepDeleted st v) ?_
      unfold stepDeleted
      split
      · exact subset_setInsert _ _ hx
      · exact hx

/-- Collection preserves the no-duplicates invariant of `deleteIpsMap`. -/
theorem collectDeleted_deleteM_nodup {st : ReconState} (h : st.deleteM.Nodup)
    (ds : List IPValue) : (collectDeleted st ds).deleteM.Nodup := by
  induction ds generalizing st with
  | nil => exact h
  | cons v rest ih =>
      refine ih ?_
      unfold stepDeleted
      split
      · exact setInsert_nodup h _
      · exact h

/-- The collector never creates an index entry: every binding of the index
after a batch was already there before it. -/
theorem collectDeleted_index_submap (st : ReconState) (ds : List IPValue)
    (k r : String) :
    mlookup (collectDeleted st ds).index k = some r →
      mlookup st.index k = some r := by
  induction ds generalizing st with
  | nil => exact fun h => h
  | cons v rest ih =>
      intro h
      have h' := ih (stepDeleted st v) h
      unfold stepDeleted at h'
      split at h'
      · simp only [mlookup_mapErase] at h'
        split at h'
        · exact absurd h' (by simp)
        · exact h'
      · exact h'

/-- A deleted decision whose value resolves to a non-empty remote ID:
the loop body's then-branch, written out. -/
theorem stepDeleted_resolves (st : ReconState) (v r : String)
    (h : mlookup st.index v = some r) (hr : r ≠ "") :
    stepDeleted st v = ⟨mapErase st.index v, setInsert st.deleteM r, st.addM⟩ := by
  have hg : mapGetD st.index v = r := by simp [mapGetD, h]
  unfold stepDeleted
  rw [hg, if_pos hr]

/-- A deleted decision whose value reads as the zero value `""` leaves the
state untouched: the loop body's implicit else-branch. -/
theorem stepDeleted_noop (st : ReconState) (v : String)
    (h : mapGetD st.index v = "") : stepDeleted st v = st := by
  unfold stepDeleted
  rw [h, if_neg (by simp)]

/-- Processing one deleted decision does not disturb other keys of the
index. -/
theorem stepDeleted_lookup_ne (st : ReconState) (v X : String)
    (hne : X ≠ v) : mlookup (stepDeleted st v).index X = mlookup st.index X := by
  unfold stepDeleted
  split
  · simp [mlookup_mapErase, hne]
  · rfl

/-- Every (ip, comment) pair pending after the new-decisions loop was
pending before it or is a value of the loop's list, annotated with the
fixed comment. -/
theorem collectNew_addM_mem (st : ReconState) (ns : List IPValue)
    (p : String × String) :
    p ∈ (collectNew st ns).addM ↔
      p ∈ st.addM ∨ (p.1 ∈ ns ∧ p.2 = bouncerComment) := by
  induction ns generalizing st with
  | nil => simp [collectNew]
  | cons v rest ih =>
      have hstep : collectNew st (v :: rest) =
          collectNew ⟨st.index, st.deleteM,
            setInsert st.addM (v, bouncerComment)⟩ rest := rfl
      rw [hstep, ih]
      simp only [mem_setInsert, List.mem_cons, Prod.ext_iff]
      tauto

/-- The new-decisions loop preserves the no-duplicates invariant of
`addIpsMap`. -/
theorem collectNew_addM_nodup {st : ReconState} (h : st.addM.Nodup)
    (ns : List IPValue) : (collectNew st ns).addM.Nodup := by
  induction ns generalizing st with
  | nil => exact h
  | cons v rest ih =>
      have hstep : collectNew st (v :: rest) =
          collectNew ⟨st.index, st.deleteM,
            setInsert st.addM (v, bouncerComment)⟩ rest := rfl
      rw [hstep]
      exact ih (setInsert_nodup h _)

/-- Once a window's batches hold a deleted decision for an `X` the index
resolves with a non-empty remote ID `r`, the window's `deleteIpsMap`
holds `r`. -/
theorem collectDeleted_mem_deleteM (st : ReconState) (ds : List IPValue)
    (X r : String) (h : mlookup st.index X = some r) (hr : r ≠ "")
    (hm : X ∈ ds) : r ∈ (collectDeleted st ds).deleteM := by
  induction ds generalizing st with
  | nil => cases hm
  | cons v rest ih =>
      have hstep : collectDeleted st (v :: rest) =
          collectDeleted (stepDeleted st v) rest := rfl
      rw [hstep]
      by_cases hv : v = X
      · subst hv
        rw [stepDeleted_resolves st v r h hr]
        exact collectDeleted_deleteM_subset _ rest
          ((mem_setInsert _ _ _).mpr (Or.inl rfl))
      · have hm' : X ∈ rest := by
          rcases List.mem_cons.mp hm with h' | h'
          · exact absurd h'.symm hv
          · exact h'
        refine ih (stepDeleted st v) ?_ hm'
        rw [stepDeleted_lookup_ne st v X (fun h' => hv h'.symm)]
        exact h

/-- The first resolved deleted decision for `X` erases `X` from the index,
and nothing in the rest of the window restores it. -/
theorem collectDeleted_index_erased (st : ReconState) (ds : List IPValue)
    (X r : String) (h : mlookup st.index X = some r) (hr : r ≠ "")
    (hm : X ∈ ds) : mlookup (collectDeleted st ds).index X = none := by
  induction ds generalizing st with
  | nil => cases hm
  | cons v rest ih =>
      have hstep : collectDeleted st (v :: rest) =
          collectDeleted (stepDeleted st v) rest := rfl
      rw [hstep]
      by_cases hv : v = X
      · subst hv
        have hnone : mlookup (stepDeleted st v).index v = none := by
          rw [stepDeleted_resolves st v r h hr]
          simp [mlookup_mapErase]
        cases hcase : mlookup (collectDeleted (stepDeleted st v) rest).index v with
        | none => rfl
        | some r' =>
            have := collectDeleted_index_submap _ rest v r' hcase
            rw [hnone] at this
            cases this
      · have hm' : X ∈ rest := by
          rcases List.mem_cons.mp hm with h' | h'
          · exact absurd h'.symm hv
          · exact h'
        refine ih (stepDeleted st v) ?_ hm'
        rw [stepDeleted_lookup_ne st v X (fun h' => hv h'.symm)]
        exact h

/-! ### Lemmas about the Flush Scheduler -/

/-- The flush tick when both remote calls would succeed, in one equation:
each call is made exactly when its pending set is non-empty, the response
items are folded into the index, and both pending sets end empty. -/
theorem flushTick_success (st : ReconState) (items : List (String × String)) :
    flushTick st (.ok items) (.ok ()) =
      .ok ⟨⟨(if st.addM.isEmpty then st.index
             else items.foldl (fun m p => mapInsert m p.1 p.2) st.index),
            [], []⟩,
           (if st.addM.isEmpty then none else some st.addM),
           (if st.deleteM.isEmpty then none else some st.deleteM)⟩ := by
  by_cases ha : st.addM.isEmpty <;> by_cases hd : st.deleteM.isEmpty <;>
    simp [flushTick, ha, hd]

/-- A failing create call is fatal (src/main.go, line 114). -/
theorem flushTick_create_error (st : ReconState) (e : String)
    (dr : Except String Unit) (h : st.addM ≠ []) :
    flushTick st (.error e) dr = .error e := by
  have ha : st.addM.isEmpty = false := by
    cases hm : st.addM with
    | nil => exact absurd hm h
    | cons a l => rfl
  simp [flushTick, ha]

/-- A failing delete call is fatal in the timer-driven flush
(src/main.go, line 130). -/
theorem flushTick_delete_error (st : ReconState)
    (items : List (String × String)) (e : String) (h : st.deleteM ≠ []) :
    flushTick st (.ok items) (.error e) = .error e := by
  have hd : st.deleteM.isEmpty = false := by
    cases hm : st.deleteM with
    | nil => exact absurd hm h
    | cons a l => rfl
  by_cases ha : st.addM.isEmpty <;> simp [flushTick, ha, hd]

/-- Whatever the remote answered, a flush that did not kill the process
left both pending maps empty (src/main.go, lines 134-136). -/
theorem flushTick_ok_clears (st : ReconState)
    (cr : Except String (List (String × String))) (dr : Except String Unit)
    (fr : FlushResult) (h : flushTick st cr dr = .ok fr) :
    fr.state.addM = [] ∧ fr.state.deleteM = [] := by
  cases cr <;> cases dr <;>
    by_cases ha : st.addM.isEmpty <;> by_cases hd : st.deleteM.isEmpty <;>
      simp [flushTick, ha, hd] at h <;> subst h <;> simp

/-- A tick with nothing pending makes no call and keeps the state. -/
theorem flushTick_empty (st : ReconState) (h1 : st.addM = [])
    (h2 : st.deleteM = []) (cr : Except String (List (String × String)))
    (dr : Except String Unit) :
    flushTick st cr dr = .ok ⟨⟨st.index, [], []⟩, none, none⟩ := by
  simp [flushTick, h1, h2]

/-- A Go set-map insert of an element already present is the identity. -/
theorem setInsert_of_mem {α : Type} [DecidableEq α] {l : List α} {x : α}
    (h : x ∈ l) : setInsert l x = l := if_pos h

/-- All-no-op deleted lists leave the whole state untouched. -/
theorem collectDeleted_noop (st : ReconState) (ds : List IPValue)
    (h : ∀ v ∈ ds, mapGetD st.index v = "") : collectDeleted st ds = st := by
  induction ds with
  | nil => rfl
  | cons v rest ih =>
      have hstep : collectDeleted st (v :: rest) =
          collectDeleted (stepDeleted st v) rest := rfl
      rw [hstep, stepDeleted_noop st v (h v (List.mem_cons_self _ _))]
      exact ih fun u hu => h u (List.mem_cons_of_mem _ hu)

/-- Occurrence count of an element in a list (used to state "exactly one
request for X" independently of `BEq` instance bookkeeping). -/
def countOcc {α : Type} [DecidableEq α] (l : List α) (x : α) : Nat :=
  (l.filter (fun y => y = x)).length

theorem mem_of_countOcc_pos {α : Type} [DecidableEq α] {l : List α} {x : α}
    (h : 0 < countOcc l x) : x ∈ l := by
  cases hf : l.filter (fun y => decide (y = x)) with
  | nil => rw [countOcc, hf] at h; cases h
  | cons a t =>
      have ha : a ∈ l.filter (fun y => decide (y = x)) :=
        hf ▸ List.mem_cons_self a t
      have h2 := List.mem_filter.mp ha
      have hax : a = x := by simpa using h2.2
      exact hax ▸ h2.1

theorem countOcc_eq_one_of_mem {α : Type} [DecidableEq α] {l : List α}
    {x : α} (nd : l.Nodup) (h : x ∈ l) : countOcc l x = 1 := by
  induction l with
  | nil => cases h
  | cons a t ih =>
      rcases List.mem_cons.mp h with rfl | hx
      · have hnotin : x ∉ t := (List.nodup_cons.mp nd).1
        have hfil : t.filter (fun y => decide (y = x)) = [] := by
          refine List.filter_eq_nil_iff.mpr fun y hy => ?_
          simp only [decide_eq_true_eq]
          exact fun hyx => hnotin (hyx ▸ hy)
        simp [countOcc, List.filter_cons, hfil]
      · have ha : ¬ a = x := fun hax => (List.nodup_cons.mp nd).1 (hax ▸ hx)
        have hres := ih (List.nodup_cons.mp nd).2 hx
        unfold countOcc at hres ⊢
        rw [List.filter_cons, if_neg (by simpa using ha)]
        exact hres

/-! ### The claims -/

/-- C1 counterexample: the literal claim fails on Go's zero-value map
semantics.  `"1.2.3.4"` IS a key of IPIndex (bound to the empty string),
yet the collector neither adds a PendingDelete entry nor removes the key:
the guard `cloudflareIdByIp[v] != ""` tests for a non-empty remote ID, not
for key membership. -/
theorem c1_counterexample :
    (mlookup ([("1.2.3.4", "")] : List (String × String)) "1.2.3.4").isSome
        = true ∧
    CollectLAPIStream ⟨[("1.2.3.4", "")], [], []⟩ ⟨[], ["1.2.3.4"]⟩ =
      ⟨[("1.2.3.4", "")], [], []⟩ := by decide

/-- C1 (amended): for a deleted decision whose value the index maps to a
NON-EMPTY remote ID `r`, the collector adds `r` to PendingDelete and
removes the value from IPIndex; a value that reads as the zero value
(absent, or bound to `""`) is ignored.  No remote call is modelled: the
collector is a pure state transformer.  The third conjunct reduces an
arbitrary batch to per-decision steps, so the per-decision statements
cover every deleted decision of every batch. -/
theorem c1_collector_deleted (st : ReconState) (v : IPValue) :
    (∀ r : String, mlookup st.index v = some r → r ≠ "" →
        CollectLAPIStream st ⟨[], [v]⟩ =
          ⟨mapErase st.index v, setInsert st.deleteM r, st.addM⟩) ∧
    (mapGetD st.index v = "" → CollectLAPIStream st ⟨[], [v]⟩ = st) ∧
    (∀ ns ds, CollectLAPIStream st ⟨ns, v :: ds⟩ =
        CollectLAPIStream (stepDeleted st v) ⟨ns, ds⟩) := by
  refine ⟨?_, ?_, ?_⟩
  · intro r h hr
    exact stepDeleted_resolves st v r h hr
  · intro h
    exact stepDeleted_noop st v h
  · intro ns ds
    rfl

/-- C2: within one window (pending adds start empty after a flush), any
sequence of new decisions naming `x` at least twice yields exactly one
create-item request for `x` in the flushed add list: `addIpsMap`
deduplicates by the (IP, Comment) pair. -/
theorem c2_pendingAdd_dedup (ix : List (String × String)) (dm : List String)
    (ds : List IPValue) (x : IPValue) (items : List (String × String))
    (h2 : 2 ≤ countOcc ds x) :
    ∃ fr : FlushResult,
      flushTick (collectNew ⟨ix, dm, []⟩ ds) (.ok items) (.ok ()) = .ok fr ∧
      ∃ l : List (String × String), fr.addCall = some l ∧
        countOcc l (x, bouncerComment) = 1 := by
  have hmemx : x ∈ ds :=
    mem_of_countOcc_pos (lt_of_lt_of_le (by norm_num) h2)
  have hmem : (x, bouncerComment) ∈ (collectNew ⟨ix, dm, []⟩ ds).addM :=
    (collectNew_addM_mem _ ds _).mpr (Or.inr ⟨hmemx, rfl⟩)
  have hnodup : (collectNew ⟨ix, dm, []⟩ ds).addM.Nodup :=
    collectNew_addM_nodup (by simp) ds
  have hcnt : countOcc (collectNew ⟨ix, dm, []⟩ ds).addM (x, bouncerComment)
      = 1 := countOcc_eq_one_of_mem hnodup hmem
  have ha : (collectNew ⟨ix, dm, []⟩ ds).addM.isEmpty = false := by
    cases hm : (collectNew ⟨ix, dm, []⟩ ds).addM with
    | nil => rw [hm] at hmem; cases hmem
    | cons a l => rfl
  refine ⟨_, flushTick_success _ items,
    (collectNew ⟨ix, dm, []⟩ ds).addM, ?_, hcnt⟩
  simp [ha]

/-- C2 witness: the same new decision for 10.0.0.1 applied twice in one
window flushes exactly one create request for it. -/
theorem c2_pendingAdd_dedup_witness :
    ∃ fr : FlushResult,
      flushTick (collectNew ⟨[], [], []⟩ ["10.0.0.1", "10.0.0.1"])
        (.ok []) (.ok ()) = .ok fr ∧
      ∃ l : List (String × String), fr.addCall = some l ∧
        countOcc l ("10.0.0.1", bouncerComment) = 1 :=
  c2_pendingAdd_dedup [] [] ["10.0.0.1", "10.0.0.1"] "10.0.0.1" [] (by decide)

/-- C3 counterexample: the literal claim fails when the create call
returns the empty string as a remote ID.  The pair ("1.2.3.4", "") is
inserted into the index, but the later deleted("1.2.3.4") resolves to the
zero value, so the next flush issues NO delete call at all
(`deleteCall = none`) instead of one carrying that remote ID. -/
theorem c3_counterexample :
    flushTick ⟨[], [], [("1.2.3.4", bouncerComment)]⟩
        (.ok [("1.2.3.4", "")]) (.ok ()) =
      .ok ⟨⟨[("1.2.3.4", "")], [], []⟩,
           some [("1.2.3.4", bouncerComment)], none⟩ ∧
    flushTick (CollectLAPIStream ⟨[("1.2.3.4", "")], [], []⟩
        ⟨[], ["1.2.3.4"]⟩) (.ok []) (.ok ()) =
      .ok ⟨⟨[("1.2.3.4", "")], [], []⟩, none, none⟩ :=
  ⟨rfl, rfl⟩

/-- C3 (amended): for a pair (ip, r) of a successful create-items
response, with `r` non-empty and `ip` occurring exactly once in the
response, the flush inserts ip → r into IPIndex, and a deleted decision
for `ip` in a later window makes the next flush issue a delete call
carrying exactly `r`. -/
theorem c3_roundtrip (st : ReconState) (items : List (String × String))
    (ip r : String) (hadd : st.addM ≠ [])
    (hocc : items.filter (fun p => p.1 == ip) = [(ip, r)]) (hr : r ≠ "") :
    ∃ fr : FlushResult,
      flushTick st (.ok items) (.ok ()) = .ok fr ∧
      mlookup fr.state.index ip = some r ∧
      ∃ fr2 : FlushResult,
        flushTick (CollectLAPIStream fr.state ⟨[], [ip]⟩)
          (.ok []) (.ok ()) = .ok fr2 ∧
        fr2.deleteCall = some [r] := by
  have ha : st.addM.isEmpty = false := by
    cases hm : st.addM with
    | nil => exact absurd hm hadd
    | cons a l => rfl
  have hidx : mlookup (if st.addM.isEmpty then st.index
      else items.foldl (fun m p => mapInsert m p.1 p.2) st.index) ip
      = some r := by
    rw [ha]
    simp only [Bool.false_eq_true, if_false]
    exact mlookup_foldl_insert_unique items st.index ip r hocc
  have hcol : CollectLAPIStream
      ⟨(if st.addM.isEmpty then st.index
        else items.foldl (fun m p => mapInsert m p.1 p.2) st.index), [], []⟩
      ⟨[], [ip]⟩ =
      ⟨mapErase (if st.addM.isEmpty then st.index
        else items.foldl (fun m p => mapInsert m p.1 p.2) st.index) ip,
       [r], []⟩ :=
    stepDeleted_resolves _ ip r hidx hr
  refine ⟨⟨⟨(if st.addM.isEmpty then st.index
      else items.foldl (fun m p => mapInsert m p.1 p.2) st.index), [], []⟩,
      (if st.addM.isEmpty then none else some st.addM),
      (if st.deleteM.isEmpty then none else some st.deleteM)⟩,
    flushTick_success st items, hidx, ?_⟩
  show ∃ fr2 : FlushResult,
    flushTick (CollectLAPIStream
      ⟨(if st.addM.isEmpty then st.index
        else items.foldl (fun m p => mapInsert m p.1 p.2) st.index), [], []⟩
      ⟨[], [ip]⟩) (.ok []) (.ok ()) = .ok fr2 ∧
    fr2.deleteCall = some [r]
  rw [hcol]
  exact ⟨_, rfl, rfl⟩

/-- C3 witness: an add of 1.2.3.4 acknowledged with remote ID "abc", then
a deleted decision for it in the next window, flushes a delete call
carrying exactly "abc". -/
theorem c3_roundtrip_witness :
    ∃ fr : FlushResult,
      flushTick ⟨[], [], [("1.2.3.4", bouncerComment)]⟩
        (.ok [("1.2.3.4", "abc")]) (.ok ()) = .ok fr ∧
      mlookup fr.state.index "1.2.3.4" = some "abc" ∧
      ∃ fr2 : FlushResult,
        flushTick (CollectLAPIStream fr.state ⟨[], ["1.2.3.4"]⟩)
          (.ok []) (.ok ()) = .ok fr2 ∧
        fr2.deleteCall = some ["abc"] :=
  c3_roundtrip ⟨[], [], [("1.2.3.4", bouncerComment)]⟩
    [("1.2.3.4", "abc")] "1.2.3.4" "abc" (by decide) (by decide) (by decide)

/-- C4: a deleted decision for a value that is no key of IPIndex leaves
the state exactly as it was, and the next flush makes no delete call and
no error — whatever the remote oracle would have answered, since no call
is issued at all. -/
theorem c4_noop_delete (ix : List (String × String)) (v : IPValue)
    (h : mlookup ix v = none) :
    CollectLAPIStream ⟨ix, [], []⟩ ⟨[], [v]⟩ = ⟨ix, [], []⟩ ∧
    ∀ (cr : Except String (List (String × String))) (dr : Except String Unit),
      flushTick (CollectLAPIStream ⟨ix, [], []⟩ ⟨[], [v]⟩) cr dr =
        .ok ⟨⟨ix, [], []⟩, none, none⟩ := by
  have hst : CollectLAPIStream ⟨ix, [], []⟩ ⟨[], [v]⟩ = ⟨ix, [], []⟩ :=
    stepDeleted_noop ⟨ix, [], []⟩ v (by simp [mapGetD, h])
  refine ⟨hst, fun cr dr => ?_⟩
  rw [hst]
  exact flushTick_empty _ rfl rfl cr dr

/-- C4 witness: deleting 9.9.9.9, never added, is a no-op with no delete
request and no error. -/
theorem c4_noop_delete_witness :
    CollectLAPIStream ⟨[("5.6.7.8", "R2")], [], []⟩ ⟨[], ["9.9.9.9"]⟩ =
      ⟨[("5.6.7.8", "R2")], [], []⟩ ∧
    ∀ (cr : Except String (List (String × String))) (dr : Except String Unit),
      flushTick (CollectLAPIStream ⟨[("5.6.7.8", "R2")], [], []⟩
        ⟨[], ["9.9.9.9"]⟩) cr dr =
        .ok ⟨⟨[("5.6.7.8", "R2")], [], []⟩, none, none⟩ :=
  c4_noop_delete [("5.6.7.8", "R2")] "9.9.9.9" (by decide)

/-- C5 counterexample: the literal claim fails when X's entry holds the
empty string.  X is in IPIndex at window start (bound to `""`), yet after
new(X), new(X), deleted(X) the window holds no pending delete, and the
flush issues NO delete call (`deleteCall = none`) instead of exactly one
carrying X's prior remote ID. -/
theorem c5_counterexample :
    CollectLAPIStream (CollectLAPIStream (CollectLAPIStream
        ⟨[("1.2.3.4", "")], [], []⟩ ⟨["1.2.3.4"], []⟩) ⟨["1.2.3.4"], []⟩)
        ⟨[], ["1.2.3.4"]⟩ =
      ⟨[("1.2.3.4", "")], [], [("1.2.3.4", bouncerComment)]⟩ ∧
    flushTick ⟨[("1.2.3.4", "")], [], [("1.2.3.4", bouncerComment)]⟩
        (.ok []) (.ok ()) =
      .ok ⟨⟨[("1.2.3.4", "")], [], []⟩,
           some [("1.2.3.4", bouncerComment)], none⟩ :=
  ⟨by decide, rfl⟩

/-- C5 (amended): for any X whose index entry holds a NON-EMPTY remote ID
`r`, recording new(X), new(X), deleted(X) in one window leaves exactly one
pending delete (`r`) and exactly one pending create for X, and the flush
issues exactly one delete call carrying `r` and one create for X — the
pending add is not re-checked against IPIndex. -/
theorem c5_churn (ix : List (String × String)) (X r : String)
    (items : List (String × String)) (h : mlookup ix X = some r)
    (hr : r ≠ "") :
    CollectLAPIStream (CollectLAPIStream (CollectLAPIStream ⟨ix, [], []⟩
        ⟨[X], []⟩) ⟨[X], []⟩) ⟨[], [X]⟩ =
      ⟨mapErase ix X, [r], [(X, bouncerComment)]⟩ ∧
    ∃ fr : FlushResult,
      flushTick ⟨mapErase ix X, [r], [(X, bouncerComment)]⟩
        (.ok items) (.ok ()) = .ok fr ∧
      fr.deleteCall = some [r] ∧ fr.addCall = some [(X, bouncerComment)] := by
  have h1 : CollectLAPIStream ⟨ix, [], []⟩ ⟨[X], []⟩ =
      ⟨ix, [], [(X, bouncerComment)]⟩ := rfl
  have h2 : CollectLAPIStream ⟨ix, [], [(X, bouncerComment)]⟩ ⟨[X], []⟩ =
      ⟨ix, [], [(X, bouncerComment)]⟩ := by
    show (⟨ix, [], setInsert [(X, bouncerComment)] (X, bouncerComment)⟩ :
        ReconState) = _
    rw [setInsert_of_mem (List.mem_singleton_self _)]
  have h3 : CollectLAPIStream ⟨ix, [], [(X, bouncerComment)]⟩ ⟨[], [X]⟩ =
      ⟨mapErase ix X, [r], [(X, bouncerComment)]⟩ :=
    stepDeleted_resolves ⟨ix, [], [(X, bouncerComment)]⟩ X r h hr
  refine ⟨by rw [h1, h2]; exact h3, ?_⟩
  exact ⟨_, flushTick_success _ items, rfl, rfl⟩

/-- C5 witness: X = 1.2.3.4 with prior remote ID R1; the churned window
flushes one delete carrying R1 and one create for X. -/
theorem c5_churn_witness :
    CollectLAPIStream (CollectLAPIStream (CollectLAPIStream
        ⟨[("1.2.3.4", "R1")], [], []⟩ ⟨["1.2.3.4"], []⟩) ⟨["1.2.3.4"], []⟩)
        ⟨[], ["1.2.3.4"]⟩ =
      ⟨mapErase [("1.2.3.4", "R1")] "1.2.3.4", ["R1"],
       [("1.2.3.4", bouncerComment)]⟩ ∧
    ∃ fr : FlushResult,
      flushTick ⟨mapErase [("1.2.3.4", "R1")] "1.2.3.4", ["R1"],
        [("1.2.3.4", bouncerComment)]⟩ (.ok []) (.ok ()) = .ok fr ∧
      fr.deleteCall = some ["R1"] ∧
      fr.addCall = some [("1.2.3.4", bouncerComment)] :=
  c5_churn [("1.2.3.4", "R1")] "1.2.3.4" "R1" [] (by decide) (by decide)

/-- C6: any flush tick that did not kill the process leaves both pending
sets empty, and an immediate further tick makes no create call and no
delete call, whatever the remote would have answered. -/
theorem c6_flush_clears (st : ReconState)
    (cr : Except String (List (String × String))) (dr : Except String Unit)
    (fr : FlushResult) (h : flushTick st cr dr = .ok fr) :
    fr.state.addM = [] ∧ fr.state.deleteM = [] ∧
    ∀ (cr2 : Except String (List (String × String)))
      (dr2 : Except String Unit),
      flushTick fr.state cr2 dr2 = .ok ⟨fr.state, none, none⟩ := by
  obtain ⟨⟨i, d, a⟩, ac, dc⟩ := fr
  obtain ⟨h1, h2⟩ := flushTick_ok_clears st cr dr _ h
  simp only at h1 h2
  subst h1
  subst h2
  exact ⟨rfl, rfl, fun cr2 dr2 => flushTick_empty ⟨i, [], []⟩ rfl rfl cr2 dr2⟩

/-- C6 witness: a flush with non-empty pending adds and deletes leaves the
cleared state, and re-draining yields empty add and delete lists. -/
theorem c6_flush_clears_witness :
    (⟨⟨[("1.2.3.4", "R9")], [], []⟩, some [("1.2.3.4", bouncerComment)],
        some ["R1"]⟩ : FlushResult).state.addM = [] ∧
    (⟨⟨[("1.2.3.4", "R9")], [], []⟩, some [("1.2.3.4", bouncerComment)],
        some ["R1"]⟩ : FlushResult).state.deleteM = [] ∧
    ∀ (cr2 : Except String (List (String × String)))
      (dr2 : Except String Unit),
      flushTick (⟨⟨[("1.2.3.4", "R9")], [], []⟩,
          some [("1.2.3.4", bouncerComment)], some ["R1"]⟩ :
          FlushResult).state cr2 dr2 =
        .ok ⟨(⟨⟨[("1.2.3.4", "R9")], [], []⟩,
          some [("1.2.3.4", bouncerComment)], some ["R1"]⟩ :
          FlushResult).state, none, none⟩ :=
  c6_flush_clears ⟨[], ["R1"], [("1.2.3.4", bouncerComment)]⟩
    (.ok [("1.2.3.4", "R9")]) (.ok ())
    ⟨⟨[("1.2.3.4", "R9")], [], []⟩, some [("1.2.3.4", bouncerComment)],
     some ["R1"]⟩ rfl

/-- C7: in src/unnamed/part_000 the error of the delete-items call is
DISCARDED (line 118), contradicting the claim that either call failing is
fatal and that no reconciliation-layer error is silently swallowed: here
index 1.2.3.4 ↦ R1 resolves a deleted decision, the delete call fails with
"remote failure", and the loop iteration still returns successfully.
(The timer-driven flush of src/main.go is fatal on both calls:
`flushTick_create_error`, `flushTick_delete_error` above.) -/
theorem c7_part000_delete_error_swallowed :
    processStreamBatch [("1.2.3.4", "R1")] ⟨[], ["1.2.3.4"]⟩ (.ok [])
      (.error "remote failure") =
      .ok ⟨⟨[], [], []⟩, none, some ["R1"]⟩ := rfl

/-- C8 counterexample: the Batch Collector does NOT leave IPIndex
unchanged — a deleted decision that resolves removes its value from the
index at collection time (src/unnamed/part_000, line 86), not at flush
time. -/
theorem c8_counterexample :
    (CollectLAPIStream ⟨[("8.8.8.8", "RX")], [], []⟩
        ⟨[], ["8.8.8.8"]⟩).index = [] ∧
    (⟨[("8.8.8.8", "RX")], [], []⟩ : ReconState).index ≠ [] := by decide

/-- C8 (amended): the Batch Collector only ever REMOVES index entries
(those of resolved deleted decisions): every binding surviving a batch was
there before, a batch with no resolvable deleted decision leaves the index
unchanged, and the new-decisions loop never touches it.  Insertions happen
only in the Flush Scheduler, folding a successful create response into the
index. -/
theorem c8_index_mutation (st : ReconState) (b : StreamBatch) :
    (∀ k r : String, mlookup (CollectLAPIStream st b).index k = some r →
        mlookup st.index k = some r) ∧
    ((∀ v ∈ b.deleted, mapGetD st.index v = "") →
        (CollectLAPIStream st b).index = st.index) ∧
    (∀ ns, (collectNew st ns).index = st.index) ∧
    (∀ (items : List (String × String)) (dr : Except String Unit)
        (fr : FlushResult), st.addM ≠ [] →
        flushTick st (.ok items) dr = .ok fr →
        fr.state.index = items.foldl (fun m p => mapInsert m p.1 p.2)
          st.index) := by
  refine ⟨?_, ?_, fun ns => collectNew_index st ns, ?_⟩
  · intro k r h
    rw [CollectLAPIStream, collectNew_index] at h
    exact collectDeleted_index_submap st b.deleted k r h
  · intro h
    rw [CollectLAPIStream, collectNew_index, collectDeleted_noop st b.deleted h]
  · intro items dr fr hne h
    have ha : st.addM.isEmpty = false := by
      cases hm : st.addM with
      | nil => exact absurd hm hne
      | cons a l => rfl
    cases dr <;> by_cases hd : st.deleteM.isEmpty <;>
      simp [flushTick, ha, hd] at h <;> subst h <;> rfl

/-- C10 counterexample: the literal claim fails on an entry holding the
empty string.  1.2.3.4 is present in IPIndex at window start (bound to
`""`), two deleted decisions for it are recorded, yet PendingDelete gains
ZERO entries, not exactly one. -/
theorem c10_counterexample :
    (collectDeleted ⟨[("1.2.3.4", "")], [], []⟩
        ["1.2.3.4", "1.2.3.4"]).deleteM = [] ∧
    (mlookup ([("1.2.3.4", "")] : List (String × String)) "1.2.3.4").isSome
      = true := by decide

/-- C10 (amended): for X bound in the index to a NON-EMPTY remote ID `r`,
a window whose deleted decisions name X two or more times ends with
exactly one PendingDelete entry for `r`, with X erased from the index (so
every repeat was a no-op), and the flush issues one delete call whose list
carries `r` exactly once. -/
theorem c10_repeat_delete (ix : List (String × String)) (X r : String)
    (ds : List IPValue) (h : mlookup ix X = some r) (hr : r ≠ "")
    (h2 : 2 ≤ countOcc ds X) :
    countOcc (collectDeleted ⟨ix, [], []⟩ ds).deleteM r = 1 ∧
    mlookup (collectDeleted ⟨ix, [], []⟩ ds).index X = none ∧
    ∃ fr : FlushResult,
      flushTick (collectDeleted ⟨ix, [], []⟩ ds) (.ok []) (.ok ()) =
        .ok fr ∧
      fr.deleteCall = some (collectDeleted ⟨ix, [], []⟩ ds).deleteM := by
  have hmemX : X ∈ ds :=
    mem_of_countOcc_pos (lt_of_lt_of_le (by norm_num) h2)
  have hmemr : r ∈ (collectDeleted ⟨ix, [], []⟩ ds).deleteM :=
    collectDeleted_mem_deleteM _ ds X r h hr hmemX
  have hnd : (collectDeleted ⟨ix, [], []⟩ ds).deleteM.Nodup :=
    collectDeleted_deleteM_nodup (by simp) ds
  have hcnt := countOcc_eq_one_of_mem hnd hmemr
  have herase := collectDeleted_index_erased ⟨ix, [], []⟩ ds X r h hr hmemX
  have haddM : (collectDeleted ⟨ix, [], []⟩ ds).addM = [] :=
    collectDeleted_addM _ ds
  have ha : (collectDeleted ⟨ix, [], []⟩ ds).addM.isEmpty = true := by
    rw [haddM]; rfl
  have hd : (collectDeleted ⟨ix, [], []⟩ ds).deleteM.isEmpty = false := by
    cases hm : (collectDeleted ⟨ix, [], []⟩ ds).deleteM with
    | nil => rw [hm] at hmemr; cases hmemr
    | cons a l => rfl
  refine ⟨hcnt, herase, _, flushTick_success _ [], ?_⟩
  simp [hd]

/-- C10 witness: X = 1.2.3.4 with remote ID "abc", deleted twice in one
window: one pending delete entry, X erased, one delete call with "abc"
exactly once. -/
theorem c10_repeat_delete_witness :
    countOcc (collectDeleted ⟨[("1.2.3.4", "abc")], [], []⟩
        ["1.2.3.4", "1.2.3.4"]).deleteM "abc" = 1 ∧
    mlookup (collectDeleted ⟨[("1.2.3.4", "abc")], [], []⟩
        ["1.2.3.4", "1.2.3.4"]).index "1.2.3.4" = none ∧
    ∃ fr : FlushResult,
      flushTick (collectDeleted ⟨[("1.2.3.4", "abc")], [], []⟩
        ["1.2.3.4", "1.2.3.4"]) (.ok []) (.ok ()) = .ok fr ∧
      fr.deleteCall = some (collectDeleted ⟨[("1.2.3.4", "abc")], [], []⟩
        ["1.2.3.4", "1.2.3.4"]).deleteM :=
  c10_repeat_delete [("1.2.3.4", "abc")] "1.2.3.4" "abc"
    ["1.2.3.4", "1.2.3.4"] (by decide) (by decide) (by decide)
